import Mathlib

/-!
# Verification of the `robotsix_agents` orchestrator

This development embeds the orchestrator of `robotsix_agents`
(`robotsix_agents/orchestrator/agent.py`) in Lean 4 and proves properties
of its participant-spec parser, termination conditions, streaming run
loop, and interaction-memory checkpoint writer.

Python strings are modelled as `List Char`; Python exceptions as
`Except` errors carrying a payload.
-/

/-- The whitespace characters stripped by Python's `str.strip()`
(ASCII subset, which covers the inputs of interest). -/
def isPySpace (c : Char) : Bool :=
  c = ' ' || c = '\t' || c = '\n' || c = '\r' || c = '\x0b' || c = '\x0c'

/-- Python `s.strip()`: remove leading and trailing whitespace. -/
def pyStrip (s : List Char) : List Char :=
  ((s.dropWhile isPySpace).reverse.dropWhile isPySpace).reverse

/-- `startsWith needle hay`: `hay` begins with `needle`. -/
def startsWith : List Char → List Char → Bool
  | [], _ => true
  | _ :: _, [] => false
  | a :: as, b :: bs => a = b && startsWith as bs

/-- Python's `needle in hay` for strings: contiguous substring test. -/
def containsTok (needle : List Char) : List Char → Bool
  | [] => needle.isEmpty
  | c :: rest => startsWith needle (c :: rest) || containsTok needle rest

/-! ## Participant specification parsing

`OrchestratorAgent._parse_participant_spec` strips the spec string, then
matches it against the regular expression `^([^[\]]+)(?:\[([^\]]+)\])?$`
and, when group 2 is present, splits it on commas and strips each field.
-/

/-- `notBracket c`: `c` is neither `[` nor `]` (the character class
`[^[\]]` of the regular expression). -/
def notBracket (c : Char) : Bool :=
  !(c = '[') && !(c = ']')

/-- The match of `^([^[\\]]+)(?:\\[([^\\]]+)\\])?$` against a whole string:
returns `(group1, group2?)` on success.  Group 1 greedily takes the
maximal bracket-free prefix; the optional part requires a literal `[`,
a nonempty run of non-`]` characters, a literal `]`, then end of input. -/
def pyRegexGroups (s : List Char) : Option (List Char × Option (List Char)) :=
  if s.takeWhile notBracket = [] then none
  else
    match s.dropWhile notBracket with
    | [] => some (s.takeWhile notBracket, none)
    | c :: rest2 =>
      if c = '[' then
        if rest2.takeWhile (fun x => !(x = ']')) = [] then none
        else if rest2.dropWhile (fun x => !(x = ']')) = [']'] then
          some (s.takeWhile notBracket,
            some (rest2.takeWhile (fun x => !(x = ']'))))
        else none
      else none

/-- Python `s.split(",")`: split at every comma, keeping empty fields. -/
def splitOnComma (s : List Char) : List (List Char) :=
  match s with
  | [] => [[]]
  | c :: rest =>
    match splitOnComma rest with
    | [] => [[]]
    | g :: gs => if c = ',' then [] :: g :: gs else (c :: g) :: gs

/-- `OrchestratorAgent._parse_participant_spec`: strip the spec, match the
regular expression, and on failure raise
`ValueError(f"Invalid participant specification: {participant_spec}")`
(the error carries the original spec string).  When group 2 matched,
split it on commas and strip each parameter. -/
def _parse_participant_spec (participant_spec : List Char) :
    Except (List Char) (List Char × List (List Char)) :=
  match pyRegexGroups (pyStrip participant_spec) with
  | none => .error participant_spec
  | some (agent_name, none) => .ok (agent_name, [])
  | some (agent_name, some params_str) =>
      .ok (agent_name, (splitOnComma params_str).map pyStrip)

/-- `noBrackets s`: no character of `s` is `[` or `]`. -/
def noBrackets (s : List Char) : Prop :=
  ∀ c ∈ s, c ≠ '[' ∧ c ≠ ']'

instance (s : List Char) : Decidable (noBrackets s) := by
  unfold noBrackets
  infer_instance

/-- The specification's grammar `^([^[\]]+)(?:\[([^\]]+)\])?$`, read
declaratively: `SpecGrammar s g1 g2?` holds when the whole string `s`
matches with the given groups. -/
inductive SpecGrammar : List Char → List Char → Option (List Char) → Prop
  | plain (s : List Char) : s ≠ [] → noBrackets s → SpecGrammar s s none
  | withArgs (p q : List Char) : p ≠ [] → noBrackets p → q ≠ [] →
      (∀ c ∈ q, c ≠ ']') → SpecGrammar (p ++ '[' :: (q ++ [']'])) p (some q)

/-- The parameters extracted from an optional group 2: absent gives `[]`,
present gives the comma fields each stripped. -/
def parsedParams : Option (List Char) → List (List Char)
  | none => []
  | some params_str => (splitOnComma params_str).map pyStrip

/-! ## Messages, termination conditions and task results -/

/-- A chat message: its source (participant name) and text content. -/
structure ChatMsg where
  source : List Char
  content : List Char
deriving DecidableEq

/-- An entry of `TaskResult.messages`: a chat message
(`BaseChatMessage`) or an agent event (`BaseAgentEvent`, carrying only
an opaque tag here). -/
inductive ResMsg
  | chat (m : ChatMsg)
  | agentEvent (tag : List Char)
deriving DecidableEq

/-- `autogen_agentchat.base.TaskResult`: the message history of the run
and its stop reason. -/
structure TaskResult where
  messages : List ResMsg
  stop_reason : Option (List Char)
deriving DecidableEq

/-- A `TextMentionTermination` condition as configured by
`_create_team`: the mention text and the optional source allow-list. -/
structure TextMentionTermination where
  text : List Char
  sources : Option (List (List Char))
deriving DecidableEq

/-- Modelled from the spec: the evaluation of `TextMentionTermination`
(a class of the external `autogen_agentchat.conditions` module, whose
code is not part of this repository).  Per the specification's
Termination Evaluator, the condition is true iff the message content
contains the token as an exact case-sensitive substring and, when a
source allow-list is given, the message source belongs to it. -/
def evalTermination (t : TextMentionTermination) (m : ChatMsg) : Bool :=
  containsTok t.text m.content &&
    match t.sources with
    | none => true
    | some allowed => decide (m.source ∈ allowed)

/-- The termination condition installed by
`OrchestratorAgent._create_team`: `BYE` restricted to `user_proxy` when
the user proxy is enabled, otherwise `TERMINATE` from any source. -/
def _create_team_termination (enable_user_proxy : Bool) :
    TextMentionTermination :=
  if enable_user_proxy then
    { text := "BYE".data, sources := some ["user_proxy".data] }
  else
    { text := "TERMINATE".data, sources := none }

/-! ## Memory checkpoint writer and the streaming run loop

`OrchestratorAgent.run` consumes the stream of `team.run_stream`; when
the `TaskResult` appears it first calls
`_save_to_interaction_memory(event, participants)` and then yields it;
only a `KeyboardInterrupt` is caught, every other exception propagates
to the caller.
-/

/-- `autogen_core.memory.MemoryContent` as built by
`_save_to_interaction_memory`: the text content plus the metadata
fields `source` and `stop_reason`. -/
structure MemoryContent where
  content : List Char
  meta_source : List Char
  meta_stop_reason : Option (List Char)
deriving DecidableEq

/-- The `"source: content"` lines of the chat messages of a task result,
in history order; `BaseAgentEvent` entries contribute nothing. -/
def chatLines (msgs : List ResMsg) : List (List Char) :=
  msgs.filterMap fun m =>
    match m with
    | .chat c => some (c.source ++ ": ".data ++ c.content)
    | .agentEvent _ => none

/-- The memory content `_save_to_interaction_memory` builds from a task
result: `none` when the result holds no chat message (then nothing is
written), otherwise the `Conversation summary:` block with metadata
`source = "orchestrator"` and the result's stop reason. -/
def memoryContentFor (r : TaskResult) : Option MemoryContent :=
  match chatLines r.messages with
  | [] => none
  | lines => some
    { content := "Conversation summary:\n".data ++
        List.intercalate "\n".data lines,
      meta_source := "orchestrator".data,
      meta_stop_reason := r.stop_reason }

/-- `OrchestratorAgent._get_interaction_memory_agent`: the first
participant named `interaction_memory`, if any (participants are
identified by their names here). -/
def _get_interaction_memory_agent (participants : List (List Char)) :
    Option (List Char) :=
  participants.find? fun p => p = "interaction_memory".data

/-- `OrchestratorAgent._save_to_interaction_memory`.  `ingest` models
`create_memory().add(...)`: the memory write, which may raise — its
error payload is returned in `Except.error`.  `create_memory`'s
`ValueError` when no memory configuration exists for
`interaction_memory` is one such error.  When no `interaction_memory`
participant is found, or the result holds no chat message, the function
only logs and returns without writing.  On success it returns the
performed write, if any. -/
def _save_to_interaction_memory (participants : List (List Char))
    (ingest : MemoryContent → Except (List Char) Unit) (r : TaskResult) :
    Except (List Char) (Option MemoryContent) :=
  match _get_interaction_memory_agent participants with
  | none => .ok none
  | some _ =>
    match memoryContentFor r with
    | none => .ok none
    | some mc =>
      match ingest mc with
      | .ok _ => .ok (some mc)
      | .error e => .error e

/-- An item yielded by `team.run_stream`: an intermediate event or
message (opaque tag), or the final `TaskResult`. -/
inductive StreamItem
  | ev (tag : List Char)
  | result (r : TaskResult)
deriving DecidableEq

/-- How the iteration over `team.run_stream` ends after its items:
normal exhaustion, a raised `KeyboardInterrupt`, or another raised
error. -/
inductive StreamEnd
  | exhausted
  | kbInterrupt
  | raiseErr (e : List Char)
deriving DecidableEq

/-- How `OrchestratorAgent.run` ends, as seen by its caller. -/
inductive RunEnd
  | finished
  | interrupted
  | propagated (e : List Char)
deriving DecidableEq

/-- The observable outcome of `OrchestratorAgent.run`: the items yielded
to the caller, the number of `_save_to_interaction_memory` invocations,
the memory writes performed, and how the generator ended. -/
structure RunOutcome where
  yielded : List StreamItem
  saveCalls : Nat
  writes : List MemoryContent
  ending : RunEnd
deriving DecidableEq

/-- The `TaskResult` fabricated by `run` when a `KeyboardInterrupt` is
caught: one system-sourced note and stop reason `"User interruption"`. -/
def interruptResult : TaskResult :=
  { messages := [ResMsg.chat ⟨"system".data,
      "Task was interrupted by user.".data⟩],
    stop_reason := some "User interruption".data }

/-- `OrchestratorAgent.run`, as a function of the stream produced by
`team.run_stream` (its items, then how it ends) and of the memory sink.
Every streamed item is yielded in order; a `TaskResult` item first goes
through `_save_to_interaction_memory`, whose raised error aborts the
generator before the yield and propagates to the caller; a
`KeyboardInterrupt` raised by the stream is caught and one interruption
`TaskResult` is yielded; any other stream error propagates. -/
def runStream (participants : List (List Char))
    (ingest : MemoryContent → Except (List Char) Unit) :
    List StreamItem → StreamEnd → RunOutcome
  | [], .exhausted => ⟨[], 0, [], .finished⟩
  | [], .kbInterrupt => ⟨[.result interruptResult], 0, [], .interrupted⟩
  | [], .raiseErr e => ⟨[], 0, [], .propagated e⟩
  | .ev t :: rest, e =>
    let o := runStream participants ingest rest e
    ⟨.ev t :: o.yielded, o.saveCalls, o.writes, o.ending⟩
  | .result r :: rest, e =>
    match _save_to_interaction_memory participants ingest r with
    | .error err => ⟨[], 1, [], .propagated err⟩
    | .ok w =>
      let o := runStream participants ingest rest e
      ⟨.result r :: o.yielded, o.saveCalls + 1, w.toList ++ o.writes, o.ending⟩

/-- The `ValueError` message of `create_memory` when no memory
configuration exists for `interaction_memory`. -/
def noMemoryConfigError : List Char :=
  "No memory configuration found for 'interaction_memory'".data

/-- `isFinalEvent i`: the stream item is a terminal `TaskResult`. -/
def isFinalEvent : StreamItem → Bool
  | .result _ => true
  | .ev _ => false

/-- A completed task result with one chat message, used as concrete
input below. -/
def doneResult : TaskResult :=
  { messages := [ResMsg.chat ⟨"assistant".data, "done".data⟩],
    stop_reason := some "TERMINATE".data }

/-! ## Participant resolution

`OrchestratorAgent._create_participant_from_module` imports
`robotsix_agents.<name>.agent` dynamically and calls its
`create_agent(*params)`; `_create_participants` does this for every
configured spec in order, then appends the user proxy if enabled.
-/

/-- A Python exception as the resolver distinguishes them: an
`ImportError`/`ModuleNotFoundError` (carrying the module path), an
`AttributeError` (carrying its message), or any other exception
(opaque payload). -/
inductive PyExc
  | importError (modulePath : List Char)
  | attributeError (msg : List Char)
  | other (payload : List Char)
deriving DecidableEq

/-- A module `robotsix_agents.<name>.agent` as the resolver sees it:
whether it defines `create_agent`, and the factory itself, which may
raise (async and sync factories behave identically here, both are
awaited to a result). -/
structure AgentModule where
  hasCreateAgent : Bool
  create_agent : List (List Char) → Except PyExc (List Char)

/-- The dynamically imported module path
`robotsix_agents.{agent_name}.agent`. -/
def module_path (agent_name : List Char) : List Char :=
  "robotsix_agents.".data ++ agent_name ++ ".agent".data

/-- `OrchestratorAgent._create_participant_from_module`: look the module
up (a missing module raises `ImportError` naming the module path); a
module without `create_agent` raises `AttributeError`; the factory is
called with the parsed parameters and its exception is re-raised as is.
The second component is the error log: `logger.error` entries pairing
the participant name with the exception (`Failed to import agent module
'<name>'` / `Failed to create agent '<name>'`). -/
def _create_participant_from_module
    (modules : List Char → Option AgentModule) (agent_name : List Char)
    (params : List (List Char)) :
    Except PyExc (List Char) × List (List Char × PyExc) :=
  match modules (module_path agent_name) with
  | none =>
    let e := PyExc.importError (module_path agent_name)
    (.error e, [(agent_name, e)])
  | some m =>
    if m.hasCreateAgent then
      match m.create_agent params with
      | .ok participant => (.ok participant, [])
      | .error e => (.error e, [(agent_name, e)])
    else
      let e := PyExc.attributeError ("Module ".data ++
        module_path agent_name ++
        " does not have create_agent() function".data)
      (.error e, [(agent_name, e)])

/-- `OrchestratorAgent._create_participants`: parse and resolve each
spec in order — the first raised exception aborts the loop and
propagates — then append `user_proxy` when enabled.  The first
component lists the participants already constructed (in order) when
the second component reports the raised exception, if any. -/
def _create_participants (modules : List Char → Option AgentModule)
    (enable_user_proxy : Bool) :
    List (List Char) → List (List Char) × Option PyExc
  | [] => (if enable_user_proxy then ["user_proxy".data] else [], none)
  | spec :: rest =>
    match _parse_participant_spec spec with
    | .error bad =>
      ([], some (.other ("Invalid participant specification: ".data ++ bad)))
    | .ok (agent_name, params) =>
      match (_create_participant_from_module modules agent_name params).1 with
      | .error e => ([], some e)
      | .ok participant =>
        let o := _create_participants modules enable_user_proxy rest
        (participant :: o.1, o.2)

/-- `OrchestratorAgent.run`, including its setup phase: participants are
created first; a setup exception propagates before any event is
streamed, otherwise the created participants are handed to the
streaming loop. -/
def run_with_setup (modules : List Char → Option AgentModule)
    (enable_user_proxy : Bool) (specs : List (List Char))
    (ingest : MemoryContent → Except (List Char) Unit)
    (items : List StreamItem) (ending : StreamEnd) :
    Except PyExc RunOutcome :=
  match (_create_participants modules enable_user_proxy specs).2 with
  | some e => .error e
  | none =>
    .ok (runStream (_create_participants modules enable_user_proxy specs).1
      ingest items ending)

/-- A registry holding only the `interaction_memory` module, whose
factory succeeds. -/
def imOnlyModules : List Char → Option AgentModule := fun path =>
  if path = module_path "interaction_memory".data then
    some ⟨true, fun _ => .ok "interaction_memory".data⟩
  else none

/-- A registry holding only a `git` module whose factory raises an
exception whose payload (`boom`) does not mention the participant. -/
def gitBoomModules : List Char → Option AgentModule := fun path =>
  if path = module_path "git".data then
    some ⟨true, fun _ => .error (.other "boom".data)⟩
  else none

/-! ## Console input of the user proxy -/

/-- What happens while `input(prompt)` waits: the user enters a line, or
a `KeyboardInterrupt` is raised. -/
inductive ConsoleInput
  | text (s : List Char)
  | kbInterrupt
deriving DecidableEq

/-- `console_input_func`: the entered line is returned stripped of
surrounding whitespace; a `KeyboardInterrupt` while waiting yields the
session-termination token `BYE`. -/
def console_input_func : ConsoleInput → List Char
  | .text s => pyStrip s
  | .kbInterrupt => "BYE".data

/-! ## The conversation loop (modelled from the specification)

The loop itself is `SelectorGroupChat.run_stream` of the external
`autogen_agentchat` library; the repository only configures it
(`participants`, `max_turns`, the termination condition).  Its turn
loop is therefore modelled from the specification, §4.4.
-/

/-- The state of the conversation loop: `Running` or terminal. -/
inductive LoopStatus
  | running
  | completed (stopReason : List Char)
  | failed (e : List Char)
deriving DecidableEq

/-- The conversation state: completed turns, message history, status. -/
structure LoopState where
  turnCount : Nat
  history : List ChatMsg
  status : LoopStatus
deriving DecidableEq

/-- Modelled from the spec: one iteration of the conversation loop of
`SelectorGroupChat` (external library code, not in this repository),
per §4.4: in `Running`, the turn budget is evaluated first — when
`turnCount ≥ maxTurns` the loop completes with stop reason
`max turns reached`, invoking neither the selector nor any participant;
otherwise the selector names the next speaker (no valid candidate fails
the run), the speaker's response is appended and the turn counted, and
the termination condition is evaluated on that final message. -/
def loopStep (maxTurns : Nat) (select : LoopState → Option (List Char))
    (respond : List Char → LoopState → ChatMsg)
    (cond : TextMentionTermination) (st : LoopState) : LoopState :=
  match st.status with
  | .running =>
    if maxTurns ≤ st.turnCount then
      { st with status := .completed "max turns reached".data }
    else
      match select st with
      | none => { st with status := .failed "SelectionError".data }
      | some speaker =>
        let m := respond speaker st
        let st' : LoopState :=
          { turnCount := st.turnCount + 1, history := st.history ++ [m],
            status := .running }
        if evalTermination cond m then
          { st' with status := .completed cond.text }
        else st'
  | _ => st

/-- Modelled from the spec: the loop iterated (fuel bounds the number of
iterations considered). -/
def loopRun (maxTurns : Nat) (select : LoopState → Option (List Char))
    (respond : List Char → LoopState → ChatMsg)
    (cond : TextMentionTermination) : Nat → LoopState → LoopState
  | 0, st => st
  | fuel + 1, st =>
    loopRun maxTurns select respond cond fuel
      (loopStep maxTurns select respond cond st)

/-! ## Theorems -/
theorem startsWith_iff (n h : List Char) :
    startsWith n h = true ↔ ∃ t, h = n ++ t := by
  induction n generalizing h with
  | nil => simp [startsWith]
  | cons a as ih =>
    cases h with
    | nil => simp [startsWith]
    | cons b bs =>
      simp only [startsWith, Bool.and_eq_true, decide_eq_true_eq, ih,
        List.cons_append, List.cons.injEq]
      constructor
      · rintro ⟨rfl, t, rfl⟩; exact ⟨t, rfl, rfl⟩
      · rintro ⟨t, rfl, rfl⟩; exact ⟨rfl, t, rfl⟩

theorem containsTok_iff (n h : List Char) :
    containsTok n h = true ↔ ∃ a b, h = a ++ n ++ b := by
  induction h with
  | nil =>
    simp only [containsTok, List.isEmpty_iff]
    constructor
    · rintro rfl; exact ⟨[], [], rfl⟩
    · rintro ⟨a, b, hab⟩
      rcases List.append_eq_nil.mp (List.append_eq_nil.mp hab.symm).1 with ⟨-, h2⟩
      exact h2
  | cons c rest ih =>
    simp only [containsTok, Bool.or_eq_true, startsWith_iff, ih]
    constructor
    · rintro (⟨t, ht⟩ | ⟨a, b, hab⟩)
      · exact ⟨[], t, by simpa using ht⟩
      · exact ⟨c :: a, b, by simp [hab]⟩
    · rintro ⟨a, b, hab⟩
      cases a with
      | nil => exact Or.inl ⟨b, by simpa using hab⟩
      | cons x xs =>
        simp only [List.cons_append, List.cons.injEq] at hab
        exact Or.inr ⟨xs, b, hab.2⟩

theorem takeWhile_append_cons (f : Char → Bool) (p : List Char) (c : Char)
    (t : List Char) (hp : ∀ x ∈ p, f x = true) (hc : f c = false) :
    (p ++ c :: t).takeWhile f = p ∧ (p ++ c :: t).dropWhile f = c :: t := by
  induction p with
  | nil => simp [List.takeWhile, List.dropWhile, hc]
  | cons a as ih =>
    have ha : f a = true := hp a (by simp)
    have := ih (fun x hx => hp x (by simp [hx]))
    simp [List.takeWhile, List.dropWhile, ha, this.1, this.2]

theorem takeWhile_dropWhile_self (f : Char → Bool) (s : List Char)
    (hs : ∀ x ∈ s, f x = true) :
    s.takeWhile f = s ∧ s.dropWhile f = [] := by
  induction s with
  | nil => simp
  | cons a as ih =>
    have ha : f a = true := hs a (by simp)
    have := ih (fun x hx => hs x (by simp [hx]))
    simp [List.takeWhile, List.dropWhile, ha, this.1, this.2]

/-- Soundness of the executable matcher: a successful match yields a
derivation of the grammar. -/
theorem pyRegexGroups_sound (s : List Char) (p : List Char)
    (oq : Option (List Char)) (h : pyRegexGroups s = some (p, oq)) :
    SpecGrammar s p oq := by
  have hsplit : s.takeWhile notBracket ++ s.dropWhile notBracket = s :=
    List.takeWhile_append_dropWhile notBracket s
  have hg1mem : ∀ c ∈ s.takeWhile notBracket, c ≠ '[' ∧ c ≠ ']' := by
    intro c hc
    have := List.mem_takeWhile_imp hc
    simp only [notBracket, Bool.and_eq_true, Bool.not_eq_true',
      decide_eq_false_iff_not] at this
    exact this
  unfold pyRegexGroups at h
  split at h
  · exact absurd h (by simp)
  next hg1nil =>
    split at h
    next hrest =>
      simp only [Option.some.injEq, Prod.mk.injEq] at h
      obtain ⟨rfl, rfl⟩ := h
      rw [hrest, List.append_nil] at hsplit
      rw [hsplit]
      rw [hsplit] at hg1nil hg1mem
      exact SpecGrammar.plain _ hg1nil hg1mem
    next c rest2 hrest =>
      split at h
      next hc =>
        subst hc
        split at h
        · exact absurd h (by simp)
        next hg2nil =>
          split at h
          next hrem =>
            simp only [Option.some.injEq, Prod.mk.injEq] at h
            obtain ⟨rfl, rfl⟩ := h
            have hsplit2 :
                rest2.takeWhile (fun x => !(x = ']')) ++
                  rest2.dropWhile (fun x => !(x = ']')) = rest2 :=
              List.takeWhile_append_dropWhile (fun x => !(x = ']')) rest2
            have hg2mem : ∀ c ∈ rest2.takeWhile (fun x => !(x = ']')),
                c ≠ ']' := by
              intro c hc
              have := List.mem_takeWhile_imp hc
              simpa using this
            have hs : s = s.takeWhile notBracket ++
                '[' :: (rest2.takeWhile (fun x => !(x = ']')) ++ [']']) := by
              conv_lhs => rw [← hsplit, hrest, ← hsplit2, hrem]
            have hgoal := SpecGrammar.withArgs (s.takeWhile notBracket)
              (rest2.takeWhile (fun x => !(x = ']'))) hg1nil hg1mem hg2nil hg2mem
            rwa [← hs] at hgoal
          · exact absurd h (by simp)
      · exact absurd h (by simp)

/-- Completeness of the executable matcher: every string matching the
grammar is accepted with exactly those groups. -/
theorem pyRegexGroups_complete (s : List Char) (p : List Char)
    (oq : Option (List Char)) (h : SpecGrammar s p oq) :
    pyRegexGroups s = some (p, oq) := by
  cases h with
  | plain s hne hnb =>
    have hall : ∀ x ∈ s, notBracket x = true := by
      intro x hx
      have := hnb x hx
      simp [notBracket, this.1, this.2]
    obtain ⟨htake, hdrop⟩ := takeWhile_dropWhile_self notBracket s hall
    unfold pyRegexGroups
    rw [htake, hdrop, if_neg hne]
  | withArgs p q hp hnb hq hqm =>
    have hallp : ∀ x ∈ p, notBracket x = true := by
      intro x hx
      have := hnb x hx
      simp [notBracket, this.1, this.2]
    have hbr : notBracket '[' = false := by simp [notBracket]
    obtain ⟨htake, hdrop⟩ :=
      takeWhile_append_cons notBracket p '[' (q ++ [']']) hallp hbr
    have hallq : ∀ x ∈ q, (fun x => !(x = ']')) x = true := by
      intro x hx
      simpa using hqm x hx
    have hclose : (fun x => !(x = ']')) ']' = false := by simp
    obtain ⟨htake2, hdrop2⟩ :=
      takeWhile_append_cons (fun x => !(x = ']')) q ']' [] hallq hclose
    unfold pyRegexGroups
    rw [htake, hdrop, if_neg hp]
    simp [htake2, hdrop2, hq]

/-- Every string matching the grammar either is bracket-free or ends in `]`. -/
theorem specGrammar_shape (s p : List Char) (oq : Option (List Char))
    (h : SpecGrammar s p oq) : noBrackets s ∨ s.getLast? = some ']' := by
  cases h with
  | plain s hne hnb => exact Or.inl hnb
  | withArgs p q hp hnb hq hqm =>
    right
    have hconcat : p ++ '[' :: (q ++ [']']) = (p ++ '[' :: q) ++ [']'] := by
      simp
    rw [hconcat, List.getLast?_concat]

/-- C2 (corrected), counterexample to the claim as stated: the string
`"git[a] "` fails the grammar `^([^[\]]+)(?:\[([^\]]+)\])?$` (it ends in
a space after the closing bracket), yet `_parse_participant_spec` parses
it successfully instead of raising, because the code strips the spec
before matching. -/
theorem C2_parse_spec_counterexample :
    (∀ p oq, ¬ SpecGrammar "git[a] ".data p oq) ∧
    _parse_participant_spec "git[a] ".data = .ok ("git".data, ["a".data]) := by
  refine ⟨fun p oq h => ?_, by rfl⟩
  rcases specGrammar_shape _ _ _ h with hnb | hl
  · exact absurd rfl (hnb '[' (by decide)).1
  · exact absurd hl (by decide)

/-- C2 (amended): the grammar is applied to the stripped specification
string.  For every spec whose stripped form matches the grammar,
`_parse_participant_spec` returns group 1 as the name and the
comma-separated group-2 fields, each stripped of surrounding whitespace
(empty list when group 2 is absent); for every spec whose stripped form
fails the grammar, it raises `ValueError` carrying the offending
string. -/
theorem C2_parse_spec_amended (s : List Char) :
    (∀ p oq, SpecGrammar (pyStrip s) p oq →
      _parse_participant_spec s = .ok (p, parsedParams oq)) ∧
    ((∀ p oq, ¬ SpecGrammar (pyStrip s) p oq) →
      _parse_participant_spec s = .error s) := by
  constructor
  · intro p oq hg
    have hm := pyRegexGroups_complete _ _ _ hg
    unfold _parse_participant_spec
    rw [hm]
    cases oq <;> rfl
  · intro hnone
    unfold _parse_participant_spec
    cases hm : pyRegexGroups (pyStrip s) with
    | none => rfl
    | some v =>
      obtain ⟨p, oq⟩ := v
      exact absurd (pyRegexGroups_sound _ _ _ hm) (hnone p oq)

/-- C2, witness: the amended theorem applied to the concrete specs
`"git[a, b]"` (well-formed, parameters stripped) and `"git[repo"`
(unbalanced bracket, rejected). -/
theorem C2_parse_spec_witness :
    _parse_participant_spec "git[a, b]".data =
      .ok ("git".data, ["a".data, "b".data]) ∧
    _parse_participant_spec "git[repo".data = .error "git[repo".data := by
  constructor
  · have hstrip : pyStrip "git[a, b]".data =
        "git".data ++ '[' :: ("a, b".data ++ [']']) := by rfl
    have hg : SpecGrammar (pyStrip "git[a, b]".data) "git".data
        (some "a, b".data) := by
      rw [hstrip]
      exact SpecGrammar.withArgs _ _ (by decide) (by decide) (by decide)
        (by decide)
    exact (C2_parse_spec_amended "git[a, b]".data).1 _ _ hg
  · refine (C2_parse_spec_amended "git[repo".data).2 fun p oq h => ?_
    rcases specGrammar_shape _ _ _ h with hnb | hl
    · exact absurd rfl (hnb '[' (by decide)).1
    · exact absurd hl (by decide)

/-- C3: the installed termination condition depends only on the
user-proxy flag.  With the user proxy enabled it fires exactly on a
message from source `user_proxy` whose content contains `BYE`; with it
disabled, exactly on a message from any source whose content contains
`TERMINATE`. -/
theorem C3_termination_condition (m : ChatMsg) :
    (evalTermination (_create_team_termination true) m = true ↔
      (∃ a b, m.content = a ++ "BYE".data ++ b) ∧
        m.source = "user_proxy".data) ∧
    (evalTermination (_create_team_termination false) m = true ↔
      ∃ a b, m.content = a ++ "TERMINATE".data ++ b) := by
  have hbye : _create_team_termination true =
      { text := "BYE".data, sources := some ["user_proxy".data] } := rfl
  have hterm : _create_team_termination false =
      { text := "TERMINATE".data, sources := none } := rfl
  constructor
  · rw [hbye]
    simp only [evalTermination, Bool.and_eq_true, decide_eq_true_eq,
      List.mem_singleton, containsTok_iff]
  · rw [hterm]
    simp only [evalTermination, Bool.and_eq_true, containsTok_iff, and_true]

/-- Prepending intermediate events to the stream only prepends them to
the yielded items; calls, writes and ending are unchanged. -/
theorem runStream_map_ev (participants : List (List Char))
    (ingest : MemoryContent → Except (List Char) Unit)
    (evs : List (List Char)) (items : List StreamItem) (ending : StreamEnd) :
    runStream participants ingest (evs.map StreamItem.ev ++ items) ending =
      ⟨evs.map StreamItem.ev ++
          (runStream participants ingest items ending).yielded,
        (runStream participants ingest items ending).saveCalls,
        (runStream participants ingest items ending).writes,
        (runStream participants ingest items ending).ending⟩ := by
  induction evs with
  | nil => simp
  | cons t ts ih => simp [runStream, ih]

theorem countP_isFinalEvent_map_ev (evs : List (List Char)) :
    (evs.map StreamItem.ev).countP isFinalEvent = 0 := by
  induction evs with
  | nil => rfl
  | cons t ts ih => simp [List.countP_cons, isFinalEvent, ih]

/-- C4: the checkpoint (`_save_to_interaction_memory`) is invoked exactly
once when the stream completes with its final `TaskResult`, and never
when the run is interrupted (`KeyboardInterrupt`) or fails (another
error aborts the stream before a `TaskResult` appears). -/
theorem C4_checkpoint_called_once (participants : List (List Char))
    (ingest : MemoryContent → Except (List Char) Unit)
    (evs : List (List Char)) (r : TaskResult) (e : List Char) :
    (runStream participants ingest
        (evs.map StreamItem.ev ++ [.result r]) .exhausted).saveCalls = 1 ∧
    (runStream participants ingest
        (evs.map StreamItem.ev) .kbInterrupt).saveCalls = 0 ∧
    (runStream participants ingest
        (evs.map StreamItem.ev) (.raiseErr e)).saveCalls = 0 := by
  have h1 := runStream_map_ev participants ingest evs [.result r] .exhausted
  have h2 := runStream_map_ev participants ingest evs [] .kbInterrupt
  have h3 := runStream_map_ev participants ingest evs [] (.raiseErr e)
  simp only [List.append_nil] at h2 h3
  refine ⟨?_, ?_, ?_⟩
  · rw [h1]
    show (runStream participants ingest [.result r] .exhausted).saveCalls = 1
    cases hsave : _save_to_interaction_memory participants ingest r with
    | error err => simp [runStream, hsave]
    | ok w => simp [runStream, hsave]
  · rw [h2]; rfl
  · rw [h3]; rfl

/-- C6: a `KeyboardInterrupt` raised by the stream is caught; the run
still yields every item streamed before it and then exactly one terminal
`TaskResult`, whose single message is the system-sourced note
`"Task was interrupted by user."` and whose stop reason is
`"User interruption"`; the generator then ends (the stream is not left
open) and nothing further is consumed or saved. -/
theorem C6_interrupt_terminal_event (participants : List (List Char))
    (ingest : MemoryContent → Except (List Char) Unit)
    (evs : List (List Char)) :
    runStream participants ingest (evs.map StreamItem.ev) .kbInterrupt =
      ⟨evs.map StreamItem.ev ++ [.result interruptResult], 0, [],
        .interrupted⟩ ∧
    ((runStream participants ingest (evs.map StreamItem.ev)
        .kbInterrupt).yielded.countP isFinalEvent = 1) ∧
    interruptResult.messages = [ResMsg.chat ⟨"system".data,
      "Task was interrupted by user.".data⟩] ∧
    interruptResult.stop_reason = some "User interruption".data := by
  have h := runStream_map_ev participants ingest evs [] .kbInterrupt
  simp only [List.append_nil] at h
  have hmain : runStream participants ingest (evs.map StreamItem.ev)
      .kbInterrupt =
      ⟨evs.map StreamItem.ev ++ [.result interruptResult], 0, [],
        .interrupted⟩ := by
    rw [h]; rfl
  refine ⟨hmain, ?_, rfl, rfl⟩
  rw [hmain]
  simp [List.countP_append, countP_isFinalEvent_map_ev, List.countP_cons,
    isFinalEvent]

/-- C1 (corrected), counterexample to the claim as stated: with an
`interaction_memory` participant present and the memory write raising
`create_memory`'s `ValueError` (no memory configuration for
`interaction_memory`), the error propagates out of `run` and the final
`TaskResult` is never yielded — the failure is not contained. -/
theorem C1_memory_failure_counterexample :
    runStream ["interaction_memory".data] (fun _ => .error noMemoryConfigError)
        [.result doneResult] .exhausted =
      ⟨[], 1, [], .propagated noMemoryConfigError⟩ ∧
    StreamItem.result doneResult ∉
      (runStream ["interaction_memory".data]
        (fun _ => .error noMemoryConfigError)
        [.result doneResult] .exhausted).yielded := by
  have h : runStream ["interaction_memory".data]
      (fun _ => .error noMemoryConfigError)
      [.result doneResult] .exhausted =
      ⟨[], 1, [], .propagated noMemoryConfigError⟩ := rfl
  refine ⟨h, ?_⟩
  rw [h]
  simp

/-- C1 (amended): when no `interaction_memory` participant is present,
the failure is only logged and the run still yields its final
`TaskResult` and finishes normally; but when the participant is present
and the memory write itself raises (for instance `create_memory`'s
`ValueError`), the exception propagates to the caller of `run` and the
final `TaskResult` is not yielded. -/
theorem C1_memory_failure_amended (participants : List (List Char))
    (ingest : MemoryContent → Except (List Char) Unit)
    (evs : List (List Char)) (r : TaskResult) :
    ("interaction_memory".data ∉ participants →
      runStream participants ingest
          (evs.map StreamItem.ev ++ [.result r]) .exhausted =
        ⟨evs.map StreamItem.ev ++ [.result r], 1, [], .finished⟩) ∧
    (∀ e, "interaction_memory".data ∈ participants →
      memoryContentFor r ≠ none →
      (∀ mc, ingest mc = .error e) →
      (runStream participants ingest
          (evs.map StreamItem.ev ++ [.result r]) .exhausted).ending =
        .propagated e ∧
      StreamItem.result r ∉
        (runStream participants ingest
          (evs.map StreamItem.ev ++ [.result r]) .exhausted).yielded) := by
  have hmap := runStream_map_ev participants ingest evs [.result r] .exhausted
  constructor
  · intro hnot
    have hfind : _get_interaction_memory_agent participants = none := by
      unfold _get_interaction_memory_agent
      rw [List.find?_eq_none]
      intro x hx
      simp only [decide_eq_true_eq]
      rintro rfl
      exact hnot hx
    have hsave : _save_to_interaction_memory participants ingest r =
        .ok none := by
      unfold _save_to_interaction_memory
      rw [hfind]
    have hbase : runStream participants ingest [.result r] .exhausted =
        ⟨[.result r], 1, [], .finished⟩ := by
      simp [runStream, hsave]
    rw [hmap, hbase]
  · intro e hmem hmc hing
    obtain ⟨mc, hmc⟩ := Option.ne_none_iff_exists'.mp hmc
    have hfind : ∃ x, _get_interaction_memory_agent participants = some x := by
      unfold _get_interaction_memory_agent
      exact Option.isSome_iff_exists.mp
        (List.find?_isSome.mpr ⟨_, hmem, by simp⟩)
    obtain ⟨x, hx⟩ := hfind
    have hsave : _save_to_interaction_memory participants ingest r =
        .error e := by
      unfold _save_to_interaction_memory
      rw [hx, hmc]
      simp [hing mc]
    have hbase : runStream participants ingest [.result r] .exhausted =
        ⟨[], 1, [], .propagated e⟩ := by
      simp [runStream, hsave]
    rw [hmap, hbase]
    refine ⟨rfl, ?_⟩
    simp

/-- C1, witness: the amended theorem applied to a concrete stream — with
participants `["git"]` (no memory sink) the final result is yielded and
the run finishes; with `["interaction_memory"]` and a failing write the
error propagates. -/
theorem C1_memory_failure_witness :
    runStream ["git".data] (fun _ => .ok ()) [.result doneResult]
        .exhausted = ⟨[.result doneResult], 1, [], .finished⟩ ∧
    (runStream ["interaction_memory".data]
        (fun _ => .error noMemoryConfigError)
        [.result doneResult] .exhausted).ending =
      .propagated noMemoryConfigError := by
  constructor
  · have := (C1_memory_failure_amended ["git".data] (fun _ => .ok ()) []
      doneResult).1 (by decide)
    simpa using this
  · exact ((C1_memory_failure_amended ["interaction_memory".data]
      (fun _ => .error noMemoryConfigError) [] doneResult).2
      noMemoryConfigError (by decide) (by decide) (fun mc => rfl)).1

/-- C10: the checkpoint serializes only chat messages.  `chatLines` is
compositional and maps each chat message to one `source: content` line
while every agent event contributes nothing; when the result holds no
chat message, the save is a no-op for every memory sink (`.ok none`, no
write attempted); and every performed write carries the
`Conversation summary:` header followed by the newline-joined lines,
the result's stop reason and metadata source `orchestrator`. -/
theorem C10_checkpoint_serialization (participants : List (List Char))
    (r : TaskResult) :
    (∀ ms1 ms2, chatLines (ms1 ++ ms2) = chatLines ms1 ++ chatLines ms2) ∧
    (∀ c, chatLines [ResMsg.chat c] =
      [c.source ++ ": ".data ++ c.content]) ∧
    (∀ t, chatLines [ResMsg.agentEvent t] = []) ∧
    (chatLines r.messages = [] →
      ∀ ingest, _save_to_interaction_memory participants ingest r =
        .ok none) ∧
    (∀ mc, memoryContentFor r = some mc →
      mc.content = "Conversation summary:\n".data ++
        List.intercalate "\n".data (chatLines r.messages) ∧
      mc.meta_stop_reason = r.stop_reason ∧
      mc.meta_source = "orchestrator".data) := by
  refine ⟨?_, fun c => rfl, fun t => rfl, ?_, ?_⟩
  · intro ms1 ms2
    unfold chatLines
    exact List.filterMap_append _ _ _
  · intro hlines ingest
    have hmc : memoryContentFor r = none := by
      unfold memoryContentFor
      rw [hlines]
    unfold _save_to_interaction_memory
    cases _get_interaction_memory_agent participants with
    | none => rfl
    | some x => rw [hmc]
  · intro mc hmc
    unfold memoryContentFor at hmc
    cases hlines : chatLines r.messages with
    | nil =>
      rw [hlines] at hmc
      exact absurd hmc (by simp)
    | cons l ls =>
      rw [hlines] at hmc
      simp only [Option.some.injEq] at hmc
      subst hmc
      exact ⟨rfl, rfl, rfl⟩

/-- C10, witness: the theorem applied to two concrete task results — one
with only an agent event (no write is attempted) and one with two chat
messages around an agent event (the write carries exactly the two
`source: content` lines under the header, with the stop reason). -/
theorem C10_checkpoint_serialization_witness :
    (_save_to_interaction_memory ["interaction_memory".data]
      (fun _ => .error "never called".data)
      ⟨[ResMsg.agentEvent "SelectSpeakerEvent".data], some "x".data⟩ =
      .ok none) ∧
    (MemoryContent.mk
        "Conversation summary:\nuser: hi\ngit: ok".data
        "orchestrator".data (some "TERMINATE".data)).content =
      "Conversation summary:\n".data ++ List.intercalate "\n".data
        (chatLines [ResMsg.chat ⟨"user".data, "hi".data⟩,
          ResMsg.agentEvent "ToolCallRequestEvent".data,
          ResMsg.chat ⟨"git".data, "ok".data⟩]) := by
  constructor
  · exact (C10_checkpoint_serialization ["interaction_memory".data]
      ⟨[ResMsg.agentEvent "SelectSpeakerEvent".data],
        some "x".data⟩).2.2.2.1 rfl _
  · exact ((C10_checkpoint_serialization ["interaction_memory".data]
      ⟨[ResMsg.chat ⟨"user".data, "hi".data⟩,
        ResMsg.agentEvent "ToolCallRequestEvent".data,
        ResMsg.chat ⟨"git".data, "ok".data⟩],
        some "TERMINATE".data⟩).2.2.2.2 _ rfl).1

/-- C7 (corrected), counterexample to the claim as stated: a factory
that raises an exception whose payload is `boom` has that very exception
re-raised unchanged — the participant name `git` is attached to the log,
not to the raised error, which mentions it nowhere. -/
theorem C7_factory_error_counterexample :
    (_create_participant_from_module gitBoomModules "git".data []).1 =
      .error (.other "boom".data) ∧
    (∀ a b, "boom".data ≠ a ++ "git".data ++ b) := by
  refine ⟨rfl, fun a b h => ?_⟩
  have : containsTok "git".data "boom".data = true :=
    (containsTok_iff _ _).mpr ⟨a, b, h⟩
  exact absurd this (by decide)

/-- C7 (amended): a participant name with no factory module raises an
`ImportError` naming the module path (which contains the participant
name) — the participant is never silently dropped; and a factory that
raises has its original exception logged together with the participant
name and re-raised unchanged (not wrapped). -/
theorem C7_resolution_errors_amended
    (modules : List Char → Option AgentModule) (agent_name : List Char)
    (params : List (List Char)) :
    (modules (module_path agent_name) = none →
      (_create_participant_from_module modules agent_name params).1 =
        .error (.importError (module_path agent_name)) ∧
      (∃ a b, module_path agent_name = a ++ agent_name ++ b)) ∧
    (∀ m e, modules (module_path agent_name) = some m →
      m.hasCreateAgent = true →
      m.create_agent params = .error e →
      (_create_participant_from_module modules agent_name params).1 =
        .error e ∧
      (agent_name, e) ∈
        (_create_participant_from_module modules agent_name params).2) := by
  constructor
  · intro hnone
    unfold _create_participant_from_module
    rw [hnone]
    exact ⟨rfl, "robotsix_agents.".data, ".agent".data, rfl⟩
  · intro m e hsome hhas herr
    unfold _create_participant_from_module
    rw [hsome]
    simp [hhas, herr]

/-- C7, witness: the amended theorem applied to a registry with no
modules (the `calendar_task` import error names the module path) and to
the `git` registry whose factory raises `boom` (the log pairs the name
with the original exception). -/
theorem C7_resolution_errors_witness :
    (_create_participant_from_module (fun _ => none) "calendar_task".data
        []).1 = .error (.importError (module_path "calendar_task".data)) ∧
    ("git".data, PyExc.other "boom".data) ∈
      (_create_participant_from_module gitBoomModules "git".data []).2 := by
  constructor
  · exact ((C7_resolution_errors_amended (fun _ => none)
      "calendar_task".data []).1 rfl).1
  · exact ((C7_resolution_errors_amended gitBoomModules "git".data []).2
      ⟨true, fun _ => .error (.other "boom".data)⟩ (.other "boom".data)
      rfl rfl rfl).2

/-- C8 (corrected), counterexample to the claim as stated: in the list
`["interaction_memory", "git[repo"]` the malformed spec is second, so
the `interaction_memory` participant is already constructed when the
parse failure is raised. -/
theorem C8_setup_order_counterexample :
    _create_participants imOnlyModules false
        ["interaction_memory".data, "git[repo".data] =
      (["interaction_memory".data],
        some (.other "Invalid participant specification: git[repo".data)) := by
  rfl

/-- C8 (amended): a malformed specification aborts setup where it is
reached: the parse `ValueError` is the raised exception, exactly the
participants listed before the malformed spec have been constructed
(none at or after it, and no user proxy), and `run` propagates the
error before any event is streamed. -/
theorem C8_setup_error_amended (modules : List Char → Option AgentModule)
    (flag : Bool) (pre : List (List Char)) (spec : List Char)
    (rest : List (List Char))
    (hpre : ∀ s ∈ pre, ∃ n p v, _parse_participant_spec s = .ok (n, p) ∧
      (_create_participant_from_module modules n p).1 = .ok v)
    (hbad : _parse_participant_spec spec = .error spec) :
    (_create_participants modules flag (pre ++ spec :: rest)).2 =
      some (.other ("Invalid participant specification: ".data ++ spec)) ∧
    (_create_participants modules flag (pre ++ spec :: rest)).1.length =
      pre.length ∧
    (∀ ingest items ending,
      run_with_setup modules flag (pre ++ spec :: rest) ingest items
          ending =
        .error (.other ("Invalid participant specification: ".data ++
          spec))) := by
  induction pre with
  | nil =>
    have hstep : _create_participants modules flag ([] ++ spec :: rest) =
        ([], some (.other ("Invalid participant specification: ".data ++
          spec))) := by
      simp only [List.nil_append]
      unfold _create_participants
      rw [hbad]
    refine ⟨by rw [hstep], by rw [hstep], ?_⟩
    intro ingest items ending
    unfold run_with_setup
    rw [hstep]
  | cons s pre' ih =>
    obtain ⟨n, p, v, hparse, hcreate⟩ := hpre s (by simp)
    have ih' := ih fun x hx => hpre x (by simp [hx])
    have hcons : _create_participants modules flag
        ((s :: pre') ++ spec :: rest) =
        (v :: (_create_participants modules flag (pre' ++ spec :: rest)).1,
         (_create_participants modules flag (pre' ++ spec :: rest)).2) := by
      simp only [List.cons_append]
      conv_lhs => unfold _create_participants
      rw [hparse]
      simp [hcreate]
    have hstep2 : (_create_participants modules flag
        ((s :: pre') ++ spec :: rest)).2 =
        (_create_participants modules flag (pre' ++ spec :: rest)).2 := by
      rw [hcons]
    have hstep1 : (_create_participants modules flag
        ((s :: pre') ++ spec :: rest)).1 =
        v :: (_create_participants modules flag (pre' ++ spec :: rest)).1 := by
      rw [hcons]
    refine ⟨?_, ?_, ?_⟩
    · rw [hstep2]; exact ih'.1
    · rw [hstep1]
      simp [ih'.2.1]
    · intro ingest items ending
      unfold run_with_setup
      rw [hstep2, ih'.1]

/-- C8, witness: the amended theorem applied to the concrete list
`["interaction_memory", "git[repo"]` — the run aborts with the parse
`ValueError` before any event is streamed. -/
theorem C8_setup_error_witness :
    run_with_setup imOnlyModules false
        ["interaction_memory".data, "git[repo".data] (fun _ => .ok ()) []
        .exhausted =
      .error (.other "Invalid participant specification: git[repo".data) := by
  have hpre : ∀ s ∈ ["interaction_memory".data], ∃ n p v,
      _parse_participant_spec s = .ok (n, p) ∧
      (_create_participant_from_module imOnlyModules n p).1 = .ok v := by
    intro s hs
    simp only [List.mem_singleton] at hs
    subst hs
    exact ⟨"interaction_memory".data, [], "interaction_memory".data, rfl, rfl⟩
  exact (C8_setup_error_amended imOnlyModules false
    ["interaction_memory".data] "git[repo".data [] hpre rfl).2.2
    (fun _ => .ok ()) [] .exhausted

theorem dropWhile_head_false (f : Char → Bool) (s : List Char) (c : Char)
    (t : List Char) (h : s.dropWhile f = c :: t) : f c = false := by
  induction s with
  | nil => simp [List.dropWhile] at h
  | cons a as ih =>
    rw [List.dropWhile_cons] at h
    by_cases ha : f a = true
    · exact ih (by rwa [if_pos ha] at h)
    · rw [if_neg ha] at h
      obtain ⟨rfl, -⟩ := List.cons.injEq .. ▸ h
      · simpa using ha

theorem takeWhile_dropWhile_nil (f : Char → Bool) (s : List Char) :
    (s.dropWhile f).takeWhile f = [] := by
  induction s with
  | nil => rfl
  | cons a as ih =>
    rw [List.dropWhile_cons]
    by_cases ha : f a = true
    · rwa [if_pos ha]
    · rw [if_neg ha, List.takeWhile_cons_of_neg (by simpa using ha)]

theorem dropWhile_append_last (f : Char → Bool) (x : List Char) (c : Char)
    (hc : f c = false) : ∃ d, (x ++ [c]).dropWhile f = d ++ [c] := by
  induction x with
  | nil => exact ⟨[], by simp [List.dropWhile, hc]⟩
  | cons a as ih =>
    by_cases ha : f a = true
    · simpa [List.dropWhile_cons, ha] using ih
    · exact ⟨a :: as, by simp [List.dropWhile_cons, ha]⟩

/-- `pyStrip` decomposes its input into whitespace margins around its
output, and the output carries whitespace at neither end. -/
theorem pyStrip_spec (s : List Char) :
    (∃ l r, (∀ c ∈ l, isPySpace c = true) ∧ (∀ c ∈ r, isPySpace c = true) ∧
      s = l ++ pyStrip s ++ r) ∧
    (pyStrip s).takeWhile isPySpace = [] ∧
    (pyStrip s).reverse.takeWhile isPySpace = [] := by
  refine ⟨?_, ?_, ?_⟩
  · refine ⟨s.takeWhile isPySpace,
      ((s.dropWhile isPySpace).reverse.takeWhile isPySpace).reverse,
      fun c hc => List.mem_takeWhile_imp hc, ?_, ?_⟩
    · intro c hc
      rw [List.mem_reverse] at hc
      exact List.mem_takeWhile_imp hc
    · conv_lhs => rw [← List.takeWhile_append_dropWhile isPySpace s]
      rw [List.append_assoc]
      congr 1
      conv_lhs =>
        rw [← List.reverse_reverse (s.dropWhile isPySpace),
          ← List.takeWhile_append_dropWhile isPySpace
            (s.dropWhile isPySpace).reverse]
      rw [List.reverse_append]
      rfl
  · unfold pyStrip
    cases hA : s.dropWhile isPySpace with
    | nil => simp
    | cons c t =>
      have hc : isPySpace c = false := dropWhile_head_false _ _ _ _ hA
      have : (c :: t).reverse = t.reverse ++ [c] := by simp
      rw [this]
      obtain ⟨d, hd⟩ := dropWhile_append_last isPySpace t.reverse c hc
      rw [hd, List.reverse_append]
      simp [List.takeWhile_cons_of_neg, hc]
  · unfold pyStrip
    rw [List.reverse_reverse]
    exact takeWhile_dropWhile_nil _ _

/-- C9: the console input function returns the user's line with
surrounding whitespace stripped (the input splits into whitespace, the
returned core carrying whitespace at neither end, and whitespace), and
a `KeyboardInterrupt` while waiting yields exactly `BYE`, the
session-termination token. -/
theorem C9_console_input (s : List Char) :
    console_input_func (.text s) = pyStrip s ∧
    (∃ l r, (∀ c ∈ l, isPySpace c = true) ∧ (∀ c ∈ r, isPySpace c = true) ∧
      s = l ++ console_input_func (.text s) ++ r) ∧
    (console_input_func (.text s)).takeWhile isPySpace = [] ∧
    (console_input_func (.text s)).reverse.takeWhile isPySpace = [] ∧
    console_input_func .kbInterrupt = "BYE".data := by
  have h := pyStrip_spec s
  exact ⟨rfl, h.1, h.2.1, h.2.2, rfl⟩

theorem loopStep_turnCount_le (maxTurns : Nat)
    (select : LoopState → Option (List Char))
    (respond : List Char → LoopState → ChatMsg)
    (cond : TextMentionTermination) (st : LoopState)
    (h : st.turnCount ≤ maxTurns) :
    (loopStep maxTurns select respond cond st).turnCount ≤ maxTurns := by
  obtain ⟨tc, hist, status⟩ := st
  cases status with
  | running =>
    simp only [loopStep]
    by_cases hb : maxTurns ≤ tc
    · simpa [hb] using h
    · rw [if_neg hb]
      have hlt : tc < maxTurns := not_le.mp hb
      cases select ⟨tc, hist, .running⟩ with
      | none => simpa using h
      | some speaker =>
        by_cases ht : evalTermination cond
            (respond speaker ⟨tc, hist, .running⟩) = true
        · simp only [ht, if_pos]
          exact hlt
        · simp only [ht, if_neg, Bool.false_eq_true, not_false_iff]
          exact hlt
  | completed r => simpa [loopStep] using h
  | failed e => simpa [loopStep] using h

/-- C5: the loop never exceeds the turn budget — from any state within
budget, any number of iterations stays within budget — and a running
state that has reached the budget transitions out of `Running` to
`Completed` with stop reason `max turns reached`, leaving the history
untouched (no further participant is invoked). -/
theorem C5_max_turns_bound (maxTurns fuel : Nat)
    (select : LoopState → Option (List Char))
    (respond : List Char → LoopState → ChatMsg)
    (cond : TextMentionTermination) (st : LoopState) :
    (st.turnCount ≤ maxTurns →
      (loopRun maxTurns select respond cond fuel st).turnCount ≤ maxTurns) ∧
    (st.status = .running → maxTurns ≤ st.turnCount →
      loopStep maxTurns select respond cond st =
        { st with status := .completed "max turns reached".data }) := by
  constructor
  · intro h
    induction fuel generalizing st with
    | zero => simpa [loopRun] using h
    | succ n ih =>
      simp only [loopRun]
      exact ih _ (loopStep_turnCount_le _ _ _ _ _ h)
  · intro hrun hge
    obtain ⟨tc, hist, status⟩ := st
    subst hrun
    simp [loopStep, hge]

/-- C5, witness: with budget 2 and a selector/responder that always
continue, five iterations from the initial state stay within 2 turns,
and the step at the budget completes with `max turns reached`. -/
theorem C5_max_turns_bound_witness :
    (loopRun 2 (fun _ => some "worker".data)
      (fun _ _ => ⟨"worker".data, "output".data⟩)
      (_create_team_termination false) 5
      ⟨0, [], .running⟩).turnCount ≤ 2 ∧
    loopStep 2 (fun _ => some "worker".data)
      (fun _ _ => ⟨"worker".data, "output".data⟩)
      (_create_team_termination false)
      ⟨2, [], .running⟩ =
      ⟨2, [], .completed "max turns reached".data⟩ := by
  constructor
  · exact (C5_max_turns_bound 2 5 (fun _ => some "worker".data)
      (fun _ _ => ⟨"worker".data, "output".data⟩)
      (_create_team_termination false) ⟨0, [], .running⟩).1 (by decide)
  · exact (C5_max_turns_bound 2 0 (fun _ => some "worker".data)
      (fun _ _ => ⟨"worker".data, "output".data⟩)
      (_create_team_termination false) ⟨2, [], .running⟩).2 rfl (by decide)
